import Mathlib

/-!
Verification of the seam-carving engine in `src/carve.rs` of the
red-mountain-resize repository.

The repository source contains only `carve.rs`; the `Grid` and
`PixelEnergyPoint` helpers it uses live in files that are not part of the
source tree, so those operations are modelled from the specification
(sections 3, 4.1 and 4.2) and carry a `Modelled from the spec:` note in
their doc comment.  Everything else is a direct translation of `carve.rs`:
machine integers (`usize`, `u8`, `u16`) become `Nat` with explicit `% 2^w`
where the source casts, fallible operations (`expect`, i.e. panics) become
`Option`, and the imperative loops become structural recursion or folds.
-/

namespace Carve

/-- Model of `Rgba<u8>` / `[u8; 4]`: four colour channels.  Channels are
`Nat`s; the `u8` range invariant (`< 256`) is stated as a hypothesis where
it matters. -/
structure Rgba where
  (c0 : Nat) (c1 : Nat) (c2 : Nat) (c3 : Nat)
  deriving DecidableEq

/-- Modelled from the spec: `PixelEnergyPoint` (grid cell, spec section 3) has a
pixel, a non-negative energy and a non-negative cumulative path cost. -/
structure PixelEnergyPoint where
  (pixel : Rgba) (energy : Nat) (path_cost : Nat)
  deriving DecidableEq

/-- Modelled from the spec: the `Grid` (spec section 3) is a rectangular
`width x height` array of cells addressed by `(x, y)`.  It is embedded as a
pair of dimensions together with a total cell function; every operation of
the engine only ever reads coordinates that are in bounds for the current
dimensions, so the behaviour of `cell` outside the rectangle is never
observable. -/
structure Grid where
  (width : Nat) (height : Nat) (cell : Nat → Nat → PixelEnergyPoint)

/-- Model of `image::DynamicImage` as far as the engine observes it: a
rectangle of pixels. -/
structure Bitmap where
  (width : Nat) (height : Nat) (pix : Nat → Nat → Rgba)

/-- The `Carver` struct of `carve.rs`: the grid plus the append-only
`removed_points` log. -/
structure Carver where
  (grid : Grid) (removed_points : List (Nat × Nat))

/-- The `Orientation` configuration enum. -/
inductive Orien where
  | Horizontal
  | Vertical
  deriving DecidableEq

/-- The `Mode` configuration enum. -/
inductive Mode where
  | Grow
  | Shrink
  deriving DecidableEq

/-- Rust's `Iterator::min_by_key` on a list of items with a `Nat` key: it
returns the first element attaining the minimal key (the Rust documentation
guarantees that on ties the first element is returned), or `none` on an
empty list. -/
def min_by_first {α : Type} (k : α → Nat) : List α → Option α
  | [] => none
  | a :: as =>
    match min_by_first k as with
    | none => some a
    | some b => if k a ≤ k b then some a else some b

/-- Modelled from the spec: squared per-channel difference, summed over the
four colour channels (spec section 4.2, `square_gradient`); the difference of
two `Nat` channels is `max - min`. -/
def square_gradient (p q : PixelEnergyPoint) : Nat :=
  let d := fun (a b : Nat) => (max a b - min a b) * (max a b - min a b)
  d p.pixel.c0 q.pixel.c0 + d p.pixel.c1 q.pixel.c1 +
    d p.pixel.c2 q.pixel.c2 + d p.pixel.c3 q.pixel.c3

/-- Modelled from the spec: `get_adjacent` returns the left/right/up/down
neighbours, clamping at the boundary by reusing the cell itself
(edge-replicate, spec section 4.1). -/
def get_adjacent (g : Grid) (x y : Nat) :
    PixelEnergyPoint × PixelEnergyPoint × PixelEnergyPoint × PixelEnergyPoint :=
  (g.cell (if x = 0 then x else x - 1) y,
   g.cell (if x + 1 < g.width then x + 1 else x) y,
   g.cell x (if y = 0 then y else y - 1),
   g.cell x (if y + 1 < g.height then y + 1 else y))

/-- The energy of cell `(x, y)` as computed by `calculate_pixel_energy`:
horizontal plus vertical square gradient of the clamped neighbours.  It
depends only on pixel data, which the energy pass never mutates. -/
def energy_at (g : Grid) (x y : Nat) : Nat :=
  match get_adjacent g x y with
  | (l, r, u, d) => square_gradient l r + square_gradient u d

/-- Modelled from the spec: the columns of the up-to-three parent candidates
of column `x`, namely `{x-1, x, x+1}` intersected with `[0, width)`, kept in
left-to-right order (spec sections 4.1 and 4.3). -/
def parent_cols (x w : Nat) : List Nat :=
  (if x = 0 then [x, x + 1] else [x - 1, x, x + 1]).filter (fun q => q < w)

/-- Modelled from the spec: `get_parents` returns the parent cells in row
`y - 1` at columns `parent_cols`, left to right, and the empty list for the
top row (spec section 4.1). -/
def get_parents (g : Grid) (x y : Nat) : List (Nat × Nat × PixelEnergyPoint) :=
  match y with
  | 0 => []
  | y0 + 1 => (parent_cols x g.width).map (fun px => (px, y0, g.cell px y0))

/-- Cumulative path cost of cell `(x, y)` (arguments in the order `y`, `x`).
`calculate_energy` iterates `y` ascending then `x` ascending and sets
`path_cost = energy + min(parent path costs)` (`0` when there are no
parents); since every read of a parent's `path_cost` sees the value written
for row `y - 1` earlier in the same pass, and the pass never changes pixel
data, the loop computes exactly this recursion on the pre-pass grid. -/
def path_cost_at (g : Grid) : Nat → Nat → Nat
  | 0 => fun x => energy_at g x 0
  | y + 1 => fun x =>
      energy_at g x (y + 1) +
        (((parent_cols x g.width).map (fun px => path_cost_at g y px)).min?).getD 0

/-- The grid after one `calculate_energy` pass: pixels are unchanged and
`energy`/`path_cost` hold the values computed by the pass. -/
def calculate_energy_grid (g : Grid) : Grid :=
  { g with cell := fun x y =>
      { pixel := (g.cell x y).pixel
        energy := energy_at g x y
        path_cost := path_cost_at g y x } }

/-- `Carver::calculate_energy`. -/
def calculate_energy (c : Carver) : Carver :=
  { c with grid := calculate_energy_grid c.grid }

/-- `Carver::get_path_start`: enumerate the bottom row (`y = height - 1`)
left to right and take the first column with minimal `path_cost`; the
source's `.expect(...)` on an empty row becomes `none`. -/
def get_path_start (g : Grid) : Option (Nat × Nat) :=
  (min_by_first (fun pr => pr.2.path_cost)
      ((List.range g.width).map (fun x => (x, g.cell x (g.height - 1))))).map
    (fun pr => (pr.1, g.height - 1))

/-- `Carver::get_parent_with_min_path_cost`: first parent candidate (left to
right) with minimal `path_cost`. -/
def get_parent_with_min_path_cost (g : Grid) (x y : Nat) : Option (Nat × Nat) :=
  (min_by_first (fun t => t.2.2.path_cost) (get_parents g x y)).map
    (fun t => (t.1, t.2.1))

/-- `Carver::find_path` (arguments in the order `y`, `x`): follow minimal
parents until a cell with no parents is reached.  The parent returned at row
`y + 1` always lies in row `y` (see `get_parent_snd` below), so the source's
loop is this structural recursion on the row index. -/
def find_path (g : Grid) : Nat → Nat → List (Nat × Nat)
  | 0 => fun x => [(x, 0)]
  | y + 1 => fun x =>
      match get_parent_with_min_path_cost g x (y + 1) with
      | none => [(x, y + 1)]
      | some p => (x, y + 1) :: find_path g y p.1

/-- Modelled from the spec: `shift_row_left_from_point(x, y)` deletes the
cell `(x, y)` by moving the cells of row `y` after column `x` one position
left (spec sections 4.1 and 4.4); the last cell of the row stays in place
and is dropped by the subsequent `remove_last_column`. -/
def shift_row_left_from_point (g : Grid) (x y : Nat) : Grid :=
  { g with cell := fun i j =>
      if j = y ∧ x ≤ i ∧ i + 1 < g.width then g.cell (i + 1) j else g.cell i j }

/-- Modelled from the spec: `shift_row_right_from_point(x, y)` moves the
cells of row `y` at or after column `x` one position right (spec section
4.1); the cell at column `x` keeps its value and the position `x + 1` is
overwritten by the caller right afterwards. -/
def shift_row_right_from_point (g : Grid) (x y : Nat) : Grid :=
  { g with cell := fun i j =>
      if j = y ∧ x + 1 ≤ i then g.cell (i - 1) j else g.cell i j }

/-- Modelled from the spec: `remove_last_column` shrinks the width by exactly
one, dropping the rightmost column (spec section 4.1). -/
def remove_last_column (g : Grid) : Grid :=
  { g with width := g.width - 1 }

/-- Modelled from the spec: `add_last_column` grows the width by exactly one,
appending a rightmost column (spec section 4.1; the spec does not fix the
content of the appended cells, here they replicate the previous last column —
no claim depends on their value). -/
def add_last_column (g : Grid) : Grid :=
  { g with width := g.width + 1
           cell := fun i j =>
             if i = g.width then g.cell (g.width - 1) j else g.cell i j }

/-- Writing through `Grid::get_mut(x, y)`. -/
def set_cell (g : Grid) (x y : Nat) (p : PixelEnergyPoint) : Grid :=
  { g with cell := fun i j => if i = x ∧ j = y then p else g.cell i j }

/-- Modelled from the spec: the `From<Rgba>` conversion used by
`pixel.into()` builds a cell whose energy and path cost start at zero (spec
section 3, "energy/path_cost initialized to zero/unset"). -/
def pep_of_pixel (p : Rgba) : PixelEnergyPoint :=
  { pixel := p, energy := 0, path_cost := 0 }

/-- `Carver::remove_path`: push every seam point onto `removed_points` and
delete it from its row, then drop the last column once. -/
def remove_path (c : Carver) (points : List (Nat × Nat)) : Carver :=
  { grid := remove_last_column
      (points.foldl (fun g pt => shift_row_left_from_point g pt.1 pt.2) c.grid)
    removed_points := c.removed_points ++ points }

/-- One iteration of the `shrink_distance` loop: recompute energy and path
costs, find the seam start, backtrack the seam, remove it.  The panic of
`get_path_start` on an empty bottom row is `none`. -/
def shrink_step (c : Carver) : Option Carver :=
  match get_path_start (calculate_energy c).grid with
  | none => none
  | some s =>
    some (remove_path (calculate_energy c)
      (find_path (calculate_energy c).grid s.2 s.1))

/-- `Carver::shrink_distance`: `distance` sequential seam removals. -/
def shrink_distance (c : Carver) : Nat → Option Carver
  | 0 => some c
  | d + 1 =>
    match shrink_step c with
    | none => none
    | some c2 => shrink_distance c2 d

/-- `Carver::get_removed_points` (the source clones the vector; values are
immutable here). -/
def get_removed_points (c : Carver) : List (Nat × Nat) :=
  c.removed_points

/-- The source's `points.sort_by(|a, b| b.0.cmp(&a.0))`: a stable sort by
descending `x` coordinate. -/
def sort_desc_x (l : List (Nat × Nat)) : List (Nat × Nat) :=
  List.insertionSort (fun a b => b.1 ≤ a.1) l

/-- `Carver::get_points_removed_by_shrink`: clone the carver, run the
ordinary shrink on the clone, and return the clone's full `removed_points`
sorted by descending `x`. -/
def get_points_removed_by_shrink (c : Carver) (d : Nat) : Option (List (Nat × Nat)) :=
  (shrink_distance c d).map (fun s => sort_desc_x (get_removed_points s))

/-- The `for _ in 0..distance { add_last_column() }` loop of
`grow_distance`. -/
def add_columns (g : Grid) : Nat → Grid
  | 0 => g
  | d + 1 => add_columns (add_last_column g) d

/-- `Carver::add_point`: shift row `y` right from `x` and write the new cell
at `(x + 1, y)`. -/
def add_point (c : Carver) (x y : Nat) (p : Rgba) : Carver :=
  let g2 := set_cell (shift_row_right_from_point c.grid x y) (x + 1) y (pep_of_pixel p)
  { c with grid := g2 }

/-- The two channel-wise `u8`/`u16` casts and the truncating division of
`average_pixels`: `((a as u16 + b as u16) / 2) as u8`. -/
def avg2 (a b : Nat) : Nat :=
  ((a % 256 + b % 256) % 65536) / 2 % 256

/-- `average_pixels` from `carve.rs`: channel-wise average in widened
(`u16`) arithmetic, truncated back to `u8`. -/
def average_pixels (p1 p2 : Rgba) : Rgba :=
  { c0 := avg2 p1.c0 p2.c0
    c1 := avg2 p1.c1 p2.c1
    c2 := avg2 p1.c2 p2.c2
    c3 := avg2 p1.c3 p2.c3 }

/-- `Carver::average_pixel_from_neighbors`: average the given left pixel
with the pixel immediately to its right. -/
def average_pixel_from_neighbors (c : Carver) (x y : Nat) (left : Rgba) : Rgba :=
  average_pixels left ((c.grid.cell (x + 1) y).pixel)

/-- The body of the `for (x, y) in points` loop of `grow_distance`: read the
current pixel at the point, average it with its right neighbour, insert the
average immediately to the right. -/
def grow_insert_point (c : Carver) (pt : Nat × Nat) : Carver :=
  add_point c pt.1 pt.2
    (average_pixel_from_neighbors c pt.1 pt.2 ((c.grid.cell pt.1 pt.2).pixel))

/-- The whole insertion loop of `grow_distance`. -/
def grow_insert_all (c : Carver) (pts : List (Nat × Nat)) : Carver :=
  pts.foldl grow_insert_point c

/-- `Carver::grow_distance`: discover insertion points via the shrink
simulation, widen the grid by `distance` columns, then insert an averaged
pixel at every recorded point. -/
def grow_distance (c : Carver) (d : Nat) : Option Carver :=
  (get_points_removed_by_shrink c d).map
    (fun pts => grow_insert_all { c with grid := add_columns c.grid d } pts)

/-- `Carver::resize_distance`: dispatch on the mode. -/
def resize_distance (c : Carver) (d : Nat) : Mode → Option Carver
  | Mode.Grow => grow_distance c d
  | Mode.Shrink => shrink_distance c d

/-- Modelled from the spec: `Grid::rotate` transposes the grid in place,
swapping width and height and remapping every coordinate (spec section
4.1). -/
def rotate (g : Grid) : Grid :=
  { width := g.height, height := g.width, cell := fun x y => g.cell y x }

/-- `Carver::rebuild_image`: a fresh bitmap of the grid's dimensions holding
every cell's pixel. -/
def rebuild_image (c : Carver) : Bitmap :=
  { width := c.grid.width, height := c.grid.height
    pix := fun x y => (c.grid.cell x y).pixel }

/-- `Carver::new`: build the grid from the bitmap with zero-initialised
energy and path cost, and an empty `removed_points` log. -/
def carver_new (b : Bitmap) : Carver :=
  { grid := { width := b.width, height := b.height
              cell := fun x y => { pixel := b.pix x y, energy := 0, path_cost := 0 } }
    removed_points := [] }

/-- `Carver::resize`: optionally rotate, resize, rotate back, rebuild.  The
result also carries the carver's final state so that post-call observations
(`get_removed_points`) can be stated. -/
def resize (c : Carver) (d : Nat) (o : Orien) (m : Mode) : Option (Bitmap × Carver) :=
  match o with
  | Orien.Horizontal => (resize_distance c d m).map (fun c2 => (rebuild_image c2, c2))
  | Orien.Vertical =>
    (resize_distance { c with grid := rotate c.grid } d m).map (fun c2 =>
      let c3 := { c2 with grid := rotate c2.grid }
      (rebuild_image c3, c3))

/-- A uniform-colour bitmap, used for the synthetic-input properties. -/
def uniform_bitmap (w h : Nat) (p : Rgba) : Bitmap :=
  { width := w, height := h, pix := fun _ _ => p }

/-- A concrete test pixel. -/
def px_test : Rgba := { c0 := 9, c1 := 9, c2 := 9, c3 := 9 }

/-- The channel-wise truncated integer mean, exactly as the specification
words it; the numerical claim compares the source's widened-cast
`average_pixels` against this. -/
def chan_avg (p q : Rgba) : Rgba :=
  { c0 := (p.c0 + q.c0) / 2
    c1 := (p.c1 + q.c1) / 2
    c2 := (p.c2 + q.c2) / 2
    c3 := (p.c3 + q.c3) / 2 }

/-- All four channels of a pixel are in the `u8` range. -/
def pix_u8 (p : Rgba) : Prop :=
  p.c0 < 256 ∧ p.c1 < 256 ∧ p.c2 < 256 ∧ p.c3 < 256

instance (p : Rgba) : Decidable (pix_u8 p) := by
  unfold pix_u8
  infer_instance

/-- A concrete 2-wide, 1-tall uniform test carver. -/
def test_carver_21 : Carver := carver_new (uniform_bitmap 2 1 px_test)

/-- A concrete 3-wide, 1-tall uniform test carver. -/
def test_carver_31 : Carver := carver_new (uniform_bitmap 3 1 px_test)

/-- A concrete 2-wide, 2-tall uniform test carver. -/
def test_carver_22 : Carver := carver_new (uniform_bitmap 2 2 px_test)

/-! ### Basic lemmas about `min_by_first` -/

theorem min_by_first_cons {α : Type} (k : α → Nat) (a : α) (as : List α) :
    min_by_first k (a :: as) =
      match min_by_first k as with
      | none => some a
      | some b => if k a ≤ k b then some a else some b := rfl

theorem min_by_first_eq_none {α : Type} (k : α → Nat) :
    ∀ l : List α, min_by_first k l = none ↔ l = [] := by
  intro l
  induction l with
  | nil => simp [min_by_first]
  | cons a as ih =>
    cases hr : min_by_first k as with
    | none => simp [min_by_first, hr]
    | some b =>
      simp only [min_by_first, hr]
      constructor
      · intro h
        split at h <;> simp_all
      · intro h
        simp_all

theorem min_by_first_mem {α : Type} (k : α → Nat) :
    ∀ (l : List α) (m : α), min_by_first k l = some m → m ∈ l := by
  intro l
  induction l with
  | nil => intro m h; simp [min_by_first] at h
  | cons a as ih =>
    intro m h
    cases hr : min_by_first k as with
    | none =>
      simp only [min_by_first, hr] at h
      simp_all
    | some b =>
      simp only [min_by_first, hr] at h
      split at h
      · simp_all
      · have := ih b hr
        simp_all

theorem min_by_first_le {α : Type} (k : α → Nat) :
    ∀ (l : List α) (m : α), min_by_first k l = some m → ∀ q ∈ l, k m ≤ k q := by
  intro l
  induction l with
  | nil => intro m h; simp [min_by_first] at h
  | cons a as ih =>
    intro m h q hq
    cases hr : min_by_first k as with
    | none =>
      have has : as = [] := (min_by_first_eq_none k as).mp hr
      subst has
      simp only [min_by_first] at h
      have hm : a = m := Option.some.inj h
      have hqa : q = a := by
        rcases List.mem_cons.mp hq with h1 | h1
        · exact h1
        · exact absurd h1 (List.not_mem_nil q)
      rw [← hm, hqa]
    | some b =>
      simp only [min_by_first, hr] at h
      split at h
      · rename_i hab
        have hm : a = m := Option.some.inj h
        rcases List.mem_cons.mp hq with h1 | h1
        · rw [← hm, h1]
        · have := ih b hr q h1
          rw [← hm]
          omega
      · rename_i hab
        have hm : b = m := Option.some.inj h
        rcases List.mem_cons.mp hq with h1 | h1
        · rw [← hm, h1]
          omega
        · rw [← hm]
          exact ih b hr q h1

theorem min_by_first_first {α : Type} (k : α → Nat) (lt : α → α → Prop)
    (hasym : ∀ a b, lt a b → ¬ lt b a) :
    ∀ (l : List α) (m : α), List.Pairwise lt l → min_by_first k l = some m →
      ∀ q ∈ l, lt q m → k m < k q := by
  intro l
  induction l with
  | nil => intro m _ h; simp [min_by_first] at h
  | cons a as ih =>
    intro m hpw h q hq hlt
    have ha := (List.pairwise_cons.mp hpw).1
    have pas := (List.pairwise_cons.mp hpw).2
    cases hr : min_by_first k as with
    | none =>
      have has : as = [] := (min_by_first_eq_none k as).mp hr
      subst has
      simp only [min_by_first] at h
      have hm : a = m := Option.some.inj h
      have hqa : q = a := by
        rcases List.mem_cons.mp hq with h1 | h1
        · exact h1
        · exact absurd h1 (List.not_mem_nil q)
      rw [← hm] at hlt
      rw [hqa] at hlt
      exact absurd hlt (hasym a a hlt)
    | some b =>
      simp only [min_by_first, hr] at h
      split at h
      · rename_i hab
        have hm : a = m := Option.some.inj h
        rcases List.mem_cons.mp hq with h1 | h1
        · rw [← hm] at hlt
          rw [h1] at hlt
          exact absurd hlt (hasym a a hlt)
        · rw [← hm] at hlt
          exact absurd hlt (hasym a q (ha q h1))
      · rename_i hab
        have hm : b = m := Option.some.inj h
        rcases List.mem_cons.mp hq with h1 | h1
        · rw [← hm, h1]
          omega
        · rw [← hm]
          exact ih b pas hr q h1 (by rw [hm]; exact hlt)

theorem min_by_first_const_zero {α : Type} (k : α → Nat) :
    ∀ l : List α, (∀ a ∈ l, k a = 0) → min_by_first k l = l.head? := by
  intro l
  induction l with
  | nil => intro; rfl
  | cons a as ih =>
    intro h
    have has : min_by_first k as = as.head? := by
      refine ih ?_
      intro q hq
      exact h q (List.mem_cons_of_mem a hq)
    cases as with
    | nil => simp [min_by_first]
    | cons b bs =>
      have hb : min_by_first k (b :: bs) = some b := by simp [has]
      have hka : k a = 0 := h a (by simp)
      have hkb : k b = 0 := h b (by simp)
      rw [min_by_first_cons, hb]
      simp [hka, hkb]

/-! ### Dimension bookkeeping -/

@[simp] theorem calculate_energy_grid_width (g : Grid) :
    (calculate_energy_grid g).width = g.width := rfl

@[simp] theorem calculate_energy_grid_height (g : Grid) :
    (calculate_energy_grid g).height = g.height := rfl

@[simp] theorem calculate_energy_width (c : Carver) :
    (calculate_energy c).grid.width = c.grid.width := rfl

@[simp] theorem calculate_energy_height (c : Carver) :
    (calculate_energy c).grid.height = c.grid.height := rfl

@[simp] theorem calculate_energy_removed (c : Carver) :
    (calculate_energy c).removed_points = c.removed_points := rfl

@[simp] theorem shift_left_width (g : Grid) (x y : Nat) :
    (shift_row_left_from_point g x y).width = g.width := rfl

@[simp] theorem shift_left_height (g : Grid) (x y : Nat) :
    (shift_row_left_from_point g x y).height = g.height := rfl

@[simp] theorem shift_right_width (g : Grid) (x y : Nat) :
    (shift_row_right_from_point g x y).width = g.width := rfl

@[simp] theorem shift_right_height (g : Grid) (x y : Nat) :
    (shift_row_right_from_point g x y).height = g.height := rfl

@[simp] theorem set_cell_width (g : Grid) (x y : Nat) (p : PixelEnergyPoint) :
    (set_cell g x y p).width = g.width := rfl

@[simp] theorem set_cell_height (g : Grid) (x y : Nat) (p : PixelEnergyPoint) :
    (set_cell g x y p).height = g.height := rfl

theorem foldl_shift_left_width (pts : List (Nat × Nat)) :
    ∀ g : Grid,
      (pts.foldl (fun g pt => shift_row_left_from_point g pt.1 pt.2) g).width = g.width := by
  induction pts with
  | nil => intro g; rfl
  | cons p ps ih =>
    intro g
    simpa using ih (shift_row_left_from_point g p.1 p.2)

theorem foldl_shift_left_height (pts : List (Nat × Nat)) :
    ∀ g : Grid,
      (pts.foldl (fun g pt => shift_row_left_from_point g pt.1 pt.2) g).height = g.height := by
  induction pts with
  | nil => intro g; rfl
  | cons p ps ih =>
    intro g
    simpa using ih (shift_row_left_from_point g p.1 p.2)

theorem remove_path_width (c : Carver) (pts : List (Nat × Nat)) :
    (remove_path c pts).grid.width = c.grid.width - 1 := by
  simp [remove_path, remove_last_column, foldl_shift_left_width]

theorem remove_path_height (c : Carver) (pts : List (Nat × Nat)) :
    (remove_path c pts).grid.height = c.grid.height := by
  simp [remove_path, remove_last_column, foldl_shift_left_height]

@[simp] theorem remove_path_removed (c : Carver) (pts : List (Nat × Nat)) :
    (remove_path c pts).removed_points = c.removed_points ++ pts := rfl

/-! ### Parent candidates -/

theorem parent_cols_lt {q x w : Nat} (h : q ∈ parent_cols x w) : q < w := by
  unfold parent_cols at h
  rcases List.mem_filter.mp h with ⟨-, h2⟩
  exact of_decide_eq_true h2

theorem parent_cols_ne_nil {x w : Nat} (h : x < w) : parent_cols x w ≠ [] := by
  have hx : x ∈ parent_cols x w := by
    unfold parent_cols
    refine List.mem_filter.mpr ⟨?_, by simpa using h⟩
    split <;> simp
  exact List.ne_nil_of_mem hx

theorem parent_cols_pairwise (x w : Nat) : List.Pairwise (· < ·) (parent_cols x w) := by
  unfold parent_cols
  refine List.Pairwise.filter _ ?_
  split
  · simp
  · rename_i hx
    have h1 : x - 1 < x := by omega
    simp [List.pairwise_cons]
    omega

/-- The parent returned by `get_parent_with_min_path_cost` at row `y + 1`
lies in row `y`, and its column is a parent candidate column. -/
theorem get_parent_snd {g : Grid} {x y : Nat} {p : Nat × Nat}
    (h : get_parent_with_min_path_cost g x (y + 1) = some p) :
    p.2 = y ∧ p.1 ∈ parent_cols x g.width := by
  unfold get_parent_with_min_path_cost at h
  rcases Option.map_eq_some'.mp h with ⟨t, ht, hproj⟩
  have hmem := min_by_first_mem _ _ _ ht
  unfold get_parents at hmem
  rcases List.mem_map.mp hmem with ⟨q, hq, hqt⟩
  subst hproj
  rw [← hqt]
  exact ⟨rfl, hq⟩

/-- When the current column is in bounds the parent lookup at row `y + 1`
succeeds and the parent's column is again in bounds. -/
theorem get_parent_is_some {g : Grid} {x y : Nat} (hx : x < g.width) :
    ∃ p, get_parent_with_min_path_cost g x (y + 1) = some p ∧ p.1 < g.width ∧ p.2 = y := by
  have hne : get_parents g x (y + 1) ≠ [] := by
    unfold get_parents
    simp only [ne_eq, List.map_eq_nil_iff]
    exact parent_cols_ne_nil hx
  cases ht : min_by_first (fun t => t.2.2.path_cost) (get_parents g x (y + 1)) with
  | none => exact absurd ((min_by_first_eq_none _ _).mp ht) hne
  | some t =>
    have hp : get_parent_with_min_path_cost g x (y + 1) = some (t.1, t.2.1) := by
      simp [get_parent_with_min_path_cost, ht]
    have h2 := get_parent_snd hp
    exact ⟨(t.1, t.2.1), hp, parent_cols_lt h2.2, h2.1⟩

/-- Every path returned by `find_path` from a row-`y` in-bounds start has
exactly `y + 1` points, one per row. -/
theorem find_path_length (g : Grid) :
    ∀ y x : Nat, x < g.width → (find_path g y x).length = y + 1 := by
  intro y
  induction y with
  | zero => intro x hx; simp [find_path]
  | succ y ih =>
    intro x hx
    rcases get_parent_is_some (g := g) (y := y) hx with ⟨p, hp, hpw, hpy⟩
    simp only [find_path, hp]
    simpa using ih p.1 hpw

/-! ### The shrink loop -/

/-- On a grid of positive width the bottom-row scan succeeds and returns an
in-bounds column of the bottom row. -/
theorem get_path_start_is_some {g : Grid} (hw : 0 < g.width) :
    ∃ x, get_path_start g = some (x, g.height - 1) ∧ x < g.width := by
  have hne : (List.range g.width).map (fun x => (x, g.cell x (g.height - 1))) ≠ [] := by
    simp only [ne_eq, List.map_eq_nil_iff, List.range_eq_nil]
    omega
  cases hm : min_by_first (fun pr => pr.2.path_cost)
      ((List.range g.width).map (fun x => (x, g.cell x (g.height - 1)))) with
  | none => exact absurd ((min_by_first_eq_none _ _).mp hm) hne
  | some m =>
    have hmem := min_by_first_mem _ _ _ hm
    rcases List.mem_map.mp hmem with ⟨q, hq, hqm⟩
    refine ⟨m.1, ?_, ?_⟩
    · simp [get_path_start, hm]
    · rw [← hqm]
      exact List.mem_range.mp hq

theorem get_path_start_none {g : Grid} (hw : g.width = 0) :
    get_path_start g = none := by
  simp [get_path_start, hw, min_by_first]

theorem shrink_step_eq_some {c : Carver} {s : Nat × Nat}
    (hs : get_path_start (calculate_energy c).grid = some s) :
    shrink_step c =
      some (remove_path (calculate_energy c)
        (find_path (calculate_energy c).grid s.2 s.1)) := by
  simp [shrink_step, hs]

/-- A successful shrink iteration shrinks the width by one, keeps the
height, and appends one seam of `height` points to `removed_points`. -/
theorem shrink_step_spec {c : Carver} (hw : 0 < c.grid.width) (hh : 0 < c.grid.height) :
    ∃ c2, shrink_step c = some c2 ∧
      c2.grid.width = c.grid.width - 1 ∧ c2.grid.height = c.grid.height ∧
      ∃ pth, c2.removed_points = c.removed_points ++ pth ∧
        pth.length = c.grid.height := by
  have hw1 : 0 < (calculate_energy c).grid.width := by simpa using hw
  rcases get_path_start_is_some hw1 with ⟨x, hs, hx⟩
  refine ⟨_, shrink_step_eq_some hs, ?_, ?_, ?_⟩
  · simpa using remove_path_width (calculate_energy c) _
  · simpa using remove_path_height (calculate_energy c) _
  · refine ⟨find_path (calculate_energy c).grid (c.grid.height - 1) x, by simp, ?_⟩
    have := find_path_length (calculate_energy c).grid (c.grid.height - 1) x (by simpa using hx)
    rw [this]
    omega

/-- Any successful shrink iteration shrinks the width by one, keeps the
height, and only appends to `removed_points`. -/
theorem shrink_step_dims {c c2 : Carver} (h : shrink_step c = some c2) :
    c2.grid.width = c.grid.width - 1 ∧ c2.grid.height = c.grid.height ∧
      ∃ pth, c2.removed_points = c.removed_points ++ pth := by
  unfold shrink_step at h
  cases hs : get_path_start (calculate_energy c).grid with
  | none => rw [hs] at h; cases h
  | some s =>
    rw [hs] at h
    have hc2 := Option.some.inj h
    rw [← hc2]
    refine ⟨?_, ?_, ?_⟩
    · simpa using remove_path_width (calculate_energy c) _
    · simpa using remove_path_height (calculate_energy c) _
    · exact ⟨find_path (calculate_energy c).grid s.2 s.1, by simp⟩

/-- A successful shrink iteration needs a nonempty bottom row. -/
theorem shrink_step_some_wpos {c c2 : Carver} (h : shrink_step c = some c2) :
    0 < c.grid.width := by
  by_contra hw
  have hw0 : (calculate_energy c).grid.width = 0 := by simpa using Nat.eq_zero_of_not_pos hw
  unfold shrink_step at h
  rw [get_path_start_none hw0] at h
  cases h

theorem shrink_step_none_of_w0 {c : Carver} (hw : c.grid.width = 0) :
    shrink_step c = none := by
  have hw0 : (calculate_energy c).grid.width = 0 := by simpa using hw
  unfold shrink_step
  rw [get_path_start_none hw0]

theorem shrink_distance_succ (c : Carver) (d : Nat) :
    shrink_distance c (d + 1) =
      match shrink_step c with
      | none => none
      | some c2 => shrink_distance c2 d := rfl

/-- Master lemma for an admissible shrink: it succeeds, shrinks the width by
exactly `d`, keeps the height, and appends exactly `d * height` points. -/
theorem shrink_master :
    ∀ (d : Nat) (c : Carver), d ≤ c.grid.width → 0 < c.grid.height →
      ∃ c2, shrink_distance c d = some c2 ∧
        c2.grid.width = c.grid.width - d ∧ c2.grid.height = c.grid.height ∧
        ∃ ps, c2.removed_points = c.removed_points ++ ps ∧
          ps.length = d * c.grid.height := by
  intro d
  induction d with
  | zero =>
    intro c _ _
    exact ⟨c, rfl, by simp, rfl, [], by simp, by simp⟩
  | succ d ih =>
    intro c hd hh
    have hw : 0 < c.grid.width := by omega
    rcases shrink_step_spec hw hh with ⟨c1, hst, hw1, hh1, pth, hrm, hlen⟩
    rcases ih c1 (by omega) (by omega) with ⟨c2, hsd, hw2, hh2, ps, hrm2, hlen2⟩
    refine ⟨c2, ?_, by omega, by omega, pth ++ ps, ?_, ?_⟩
    · rw [shrink_distance_succ, hst]
      exact hsd
    · rw [hrm2, hrm, List.append_assoc]
    · rw [List.length_append, hlen, hlen2, hh1]
      ring

/-- Dimension bookkeeping for any successful shrink, without admissibility
hypotheses. -/
theorem shrink_dims :
    ∀ (d : Nat) (c c2 : Carver), shrink_distance c d = some c2 →
      c2.grid.width = c.grid.width - d ∧ c2.grid.height = c.grid.height := by
  intro d
  induction d with
  | zero =>
    intro c c2 h
    have := Option.some.inj h
    subst this
    exact ⟨by simp, rfl⟩
  | succ d ih =>
    intro c c2 h
    rw [shrink_distance_succ] at h
    cases hs : shrink_step c with
    | none => rw [hs] at h; cases h
    | some c1 =>
      rw [hs] at h
      have h1 := shrink_step_dims hs
      have h2 := ih c1 c2 h
      refine ⟨by omega, by omega⟩

/-- A successful shrink of distance `d` implies `d` is at most the width. -/
theorem shrink_some_le :
    ∀ (d : Nat) (c c2 : Carver), shrink_distance c d = some c2 → d ≤ c.grid.width := by
  intro d
  induction d with
  | zero => intro c c2 _; omega
  | succ d ih =>
    intro c c2 h
    rw [shrink_distance_succ] at h
    cases hs : shrink_step c with
    | none => rw [hs] at h; cases h
    | some c1 =>
      rw [hs] at h
      have hw := shrink_step_some_wpos hs
      have h1 := shrink_step_dims hs
      have := ih c1 c2 h
      omega

theorem shrink_distance_add :
    ∀ (a b : Nat) (c : Carver),
      shrink_distance c (a + b) =
        (shrink_distance c a).bind (fun c2 => shrink_distance c2 b) := by
  intro a
  induction a with
  | zero =>
    intro b c
    simp [shrink_distance]
  | succ a ih =>
    intro b c
    have hab : a + 1 + b = (a + b) + 1 := by omega
    rw [hab, shrink_distance_succ, shrink_distance_succ]
    cases hs : shrink_step c with
    | none => simp
    | some c1 =>
      simp only [Option.bind]
      exact ih b c1

/-- An inadmissible shrink distance makes the loop hit the empty bottom row
and fail. -/
theorem shrink_none_of_gt {c : Carver} {d : Nat} (hh : 0 < c.grid.height)
    (hlt : c.grid.width < d) : shrink_distance c d = none := by
  have hd : d = c.grid.width + (d - c.grid.width) := by omega
  rw [hd, shrink_distance_add]
  rcases shrink_master c.grid.width c (by omega) hh with ⟨c2, hs, hw2, _, _⟩
  rw [hs]
  have hk : ∃ k, d - c.grid.width = k + 1 := ⟨d - c.grid.width - 1, by omega⟩
  rcases hk with ⟨k, hk⟩
  rw [hk]
  simp only [Option.bind, shrink_distance_succ]
  rw [shrink_step_none_of_w0 (by omega)]

/-! ### The grow operation -/

theorem add_columns_width :
    ∀ (d : Nat) (g : Grid), (add_columns g d).width = g.width + d := by
  intro d
  induction d with
  | zero => intro g; rfl
  | succ d ih =>
    intro g
    have := ih (add_last_column g)
    simp only [add_columns]
    rw [this]
    simp [add_last_column]
    omega

theorem add_columns_height :
    ∀ (d : Nat) (g : Grid), (add_columns g d).height = g.height := by
  intro d
  induction d with
  | zero => intro g; rfl
  | succ d ih =>
    intro g
    have := ih (add_last_column g)
    simp only [add_columns]
    rw [this]
    rfl

@[simp] theorem add_point_width (c : Carver) (x y : Nat) (p : Rgba) :
    (add_point c x y p).grid.width = c.grid.width := rfl

@[simp] theorem add_point_height (c : Carver) (x y : Nat) (p : Rgba) :
    (add_point c x y p).grid.height = c.grid.height := rfl

@[simp] theorem add_point_removed (c : Carver) (x y : Nat) (p : Rgba) :
    (add_point c x y p).removed_points = c.removed_points := rfl

theorem grow_insert_all_width (pts : List (Nat × Nat)) :
    ∀ c : Carver, (grow_insert_all c pts).grid.width = c.grid.width := by
  induction pts with
  | nil => intro c; rfl
  | cons p ps ih =>
    intro c
    simpa [grow_insert_all, grow_insert_point] using ih (grow_insert_point c p)

theorem grow_insert_all_height (pts : List (Nat × Nat)) :
    ∀ c : Carver, (grow_insert_all c pts).grid.height = c.grid.height := by
  induction pts with
  | nil => intro c; rfl
  | cons p ps ih =>
    intro c
    simpa [grow_insert_all, grow_insert_point] using ih (grow_insert_point c p)

theorem grow_insert_all_removed (pts : List (Nat × Nat)) :
    ∀ c : Carver, (grow_insert_all c pts).removed_points = c.removed_points := by
  induction pts with
  | nil => intro c; rfl
  | cons p ps ih =>
    intro c
    simpa [grow_insert_all, grow_insert_point] using ih (grow_insert_point c p)

/-- Dimension bookkeeping for a successful grow: the width gains exactly
`d`, the height is unchanged, and `removed_points` is untouched (the grow
loop of `carve.rs` records nothing). -/
theorem grow_dims {c c2 : Carver} {d : Nat} (h : grow_distance c d = some c2) :
    c2.grid.width = c.grid.width + d ∧ c2.grid.height = c.grid.height ∧
      c2.removed_points = c.removed_points := by
  unfold grow_distance at h
  rcases Option.map_eq_some'.mp h with ⟨pts, _, hc2⟩
  rw [← hc2]
  refine ⟨?_, ?_, ?_⟩
  · rw [grow_insert_all_width]
    simpa using add_columns_width d c.grid
  · rw [grow_insert_all_height]
    simpa using add_columns_height d c.grid
  · rw [grow_insert_all_removed]

/-! ### Uniform-colour inputs -/

@[simp] theorem calc_cell_path_cost (g : Grid) (q r : Nat) :
    ((calculate_energy_grid g).cell q r).path_cost = path_cost_at g r q := rfl

theorem square_gradient_zero {p q : PixelEnergyPoint} (h : p.pixel = q.pixel) :
    square_gradient p q = 0 := by
  simp [square_gradient, h, Nat.max_self, Nat.min_self]

theorem uniform_energy (w h : Nat) (p : Rgba) (x y : Nat) :
    energy_at (carver_new (uniform_bitmap w h p)).grid x y = 0 := by
  show square_gradient (pep_of_pixel p) (pep_of_pixel p) +
      square_gradient (pep_of_pixel p) (pep_of_pixel p) = 0
  rw [square_gradient_zero rfl]

theorem foldl_min_zero :
    ∀ (l : List Nat) (a : Nat), (∀ q ∈ l, q = 0) → a = 0 → l.foldl min a = 0 := by
  intro l
  induction l with
  | nil => intro a _ ha; simpa using ha
  | cons b bs ih =>
    intro a h ha
    have hb : b = 0 := h b (by simp)
    refine ih (min a b) ?_ ?_
    · intro q hq
      exact h q (List.mem_cons_of_mem b hq)
    · rw [ha, hb]
      simp

theorem min_getD_zero (l : List Nat) (h : ∀ q ∈ l, q = 0) : l.min?.getD 0 = 0 := by
  cases l with
  | nil => rfl
  | cons a as =>
    have ha : a = 0 := h a (by simp)
    have : as.foldl min a = 0 := by
      refine foldl_min_zero as a ?_ ha
      intro q hq
      exact h q (List.mem_cons_of_mem a hq)
    simp [List.min?, this]

theorem uniform_path_cost (w h : Nat) (p : Rgba) :
    ∀ y x, path_cost_at (carver_new (uniform_bitmap w h p)).grid y x = 0 := by
  intro y
  induction y with
  | zero =>
    intro x
    simpa [path_cost_at] using uniform_energy w h p x 0
  | succ y ih =>
    intro x
    simp only [path_cost_at]
    rw [uniform_energy]
    rw [min_getD_zero]
    · intro q hq
      rcases List.mem_map.mp hq with ⟨px, _, hpx⟩
      rw [← hpx]
      exact ih px

theorem head_map_range {β : Type} (f : Nat → β) {w : Nat} (hw : 0 < w) :
    ((List.range w).map f).head? = some (f 0) := by
  obtain ⟨w0, rfl⟩ := Nat.exists_eq_succ_of_ne_zero (Nat.pos_iff_ne_zero.mp hw)
  rw [List.range_succ_eq_map]
  simp

theorem uniform_get_path_start (w h : Nat) (p : Rgba) (hw : 0 < w) :
    get_path_start (calculate_energy_grid (carver_new (uniform_bitmap w h p)).grid) =
      some (0, h - 1) := by
  unfold get_path_start
  rw [min_by_first_const_zero]
  · rw [head_map_range _ (show 0 < (calculate_energy_grid
        (carver_new (uniform_bitmap w h p)).grid).width from hw)]
    rfl
  · intro a ha
    rcases List.mem_map.mp ha with ⟨q, _, hqa⟩
    rw [← hqa]
    simpa using uniform_path_cost w h p _ q

theorem parent_cols_zero {w : Nat} (hw : 0 < w) :
    ∃ rest, parent_cols 0 w = 0 :: rest := by
  unfold parent_cols
  simp only [if_pos rfl]
  refine ⟨List.filter (fun q => decide (q < w)) [0 + 1], ?_⟩
  simp [List.filter_cons, hw]

theorem uniform_get_parent (w h : Nat) (p : Rgba) (hw : 0 < w) (y : Nat) :
    get_parent_with_min_path_cost
        (calculate_energy_grid (carver_new (uniform_bitmap w h p)).grid) 0 (y + 1) =
      some (0, y) := by
  unfold get_parent_with_min_path_cost get_parents
  rw [min_by_first_const_zero]
  · rcases parent_cols_zero (show 0 < (calculate_energy_grid
        (carver_new (uniform_bitmap w h p)).grid).width from hw) with ⟨rest, hpc⟩
    rw [hpc]
    rfl
  · intro a ha
    rcases List.mem_map.mp ha with ⟨q, _, hqa⟩
    rw [← hqa]
    simpa using uniform_path_cost w h p y q

theorem uniform_find_path (w h : Nat) (p : Rgba) (hw : 0 < w) :
    ∀ y, find_path (calculate_energy_grid (carver_new (uniform_bitmap w h p)).grid) y 0 =
      (List.range (y + 1)).reverse.map (fun r => ((0 : Nat), r)) := by
  intro y
  induction y with
  | zero => simp [find_path, List.range_succ]
  | succ y ih =>
    simp only [find_path, uniform_get_parent w h p hw y]
    rw [ih, List.range_succ (y + 1)]
    simp

/-! ### Channel averaging -/

theorem avg2_eq {a b : Nat} (ha : a < 256) (hb : b < 256) : avg2 a b = (a + b) / 2 := by
  unfold avg2
  rw [Nat.mod_eq_of_lt ha, Nat.mod_eq_of_lt hb,
    Nat.mod_eq_of_lt (show a + b < 65536 by omega),
    Nat.mod_eq_of_lt (show (a + b) / 2 < 256 by omega)]

theorem avg2_lt {a b : Nat} (ha : a < 256) (hb : b < 256) : (a + b) / 2 < 256 := by
  omega

theorem average_pixels_eq_chan_avg {p q : Rgba} (hp : pix_u8 p) (hq : pix_u8 q) :
    average_pixels p q = chan_avg p q := by
  rcases hp with ⟨h0, h1, h2, h3⟩
  rcases hq with ⟨g0, g1, g2, g3⟩
  simp [average_pixels, chan_avg, avg2_eq, h0, h1, h2, h3, g0, g1, g2, g3]

@[simp] theorem calculate_energy_grid_proj (c : Carver) :
    (calculate_energy c).grid = calculate_energy_grid c.grid := rfl

@[simp] theorem carver_new_removed (b : Bitmap) :
    (carver_new b).removed_points = [] := rfl

theorem get_parents_zero (g : Grid) (x : Nat) : get_parents g x 0 = [] := rfl

theorem get_parents_succ (g : Grid) (x y : Nat) :
    get_parents g x (y + 1) =
      (parent_cols x g.width).map (fun px => (px, y, g.cell px y)) := rfl

/-! ### Claim C1 -/

/-- C1: for every valid grid (positive height) and every distance `d` with
`0 ≤ d <` the current width along the processing axis, `shrink_distance d`
completes, reduces the width by exactly `d`, and leaves the orthogonal
axis's size (the height) unchanged. -/
theorem C1_shrink_reduces_width (c : Carver) (d : Nat)
    (hd : d < c.grid.width) (hh : 0 < c.grid.height) :
    ∃ c2, shrink_distance c d = some c2 ∧
      c2.grid.width = c.grid.width - d ∧ c2.grid.height = c.grid.height := by
  rcases shrink_master d c (by omega) hh with ⟨c2, h1, h2, h3, -⟩
  exact ⟨c2, h1, h2, h3⟩

/-- Witness for C1 on the concrete 3-by-1 uniform carver with `d = 2`. -/
theorem C1_witness :
    (2 < test_carver_31.grid.width ∧ 0 < test_carver_31.grid.height) ∧
    ∃ c2, shrink_distance test_carver_31 2 = some c2 ∧
      c2.grid.width = test_carver_31.grid.width - 2 ∧
      c2.grid.height = test_carver_31.grid.height :=
  ⟨⟨by decide, by decide⟩,
    C1_shrink_reduces_width test_carver_31 2 (by decide) (by decide)⟩

/-! ### Claim C3 -/

/-- C3 counterexample: shrinking the 2-wide carver by exactly its width
(`d = 2`) completes normally, contradicting the claim that a distance equal
to the current size already terminates abnormally. -/
theorem C3_counterexample :
    (shrink_distance test_carver_21 2).isSome = true := by decide

/-- C3 amended: for a valid grid, shrinking terminates abnormally (the
`expect` panic of `get_path_start` on an emptied bottom row, modelled as
`none`) exactly when the distance strictly exceeds the current width; at a
distance equal to the width the shrink still completes, leaving a zero-width
grid. -/
theorem C3_abnormal_iff_gt_width (c : Carver) (d : Nat) (hh : 0 < c.grid.height) :
    shrink_distance c d = none ↔ c.grid.width < d := by
  constructor
  · intro h
    by_contra hlt
    rcases shrink_master d c (by omega) hh with ⟨c2, h2, -⟩
    rw [h] at h2
    cases h2
  · intro h
    exact shrink_none_of_gt hh h

/-- Witness for the amended C3 on the concrete 2-by-1 carver with `d = 3`. -/
theorem C3_witness :
    0 < test_carver_21.grid.height ∧ shrink_distance test_carver_21 3 = none :=
  ⟨by decide, (C3_abnormal_iff_gt_width test_carver_21 3 (by decide)).mpr (by decide)⟩

/-! ### Claim C6 -/

/-- C6: an admissible shrink of distance `d` appends exactly
`d * height` entries to `removed_points` and preserves the previously
recorded sequence as a prefix. -/
theorem C6_removed_points_append (c : Carver) (d : Nat)
    (hd : d < c.grid.width) (hh : 0 < c.grid.height) :
    ∃ c2 ps, shrink_distance c d = some c2 ∧
      c2.removed_points = c.removed_points ++ ps ∧
      ps.length = d * c.grid.height := by
  rcases shrink_master d c (by omega) hh with ⟨c2, h1, -, -, ps, h4, h5⟩
  exact ⟨c2, ps, h1, h4, h5⟩

/-- Witness for C6 on the concrete 2-by-2 uniform carver with `d = 1`. -/
theorem C6_witness :
    (1 < test_carver_22.grid.width ∧ 0 < test_carver_22.grid.height) ∧
    ∃ c2 ps, shrink_distance test_carver_22 1 = some c2 ∧
      c2.removed_points = test_carver_22.removed_points ++ ps ∧
      ps.length = 1 * test_carver_22.grid.height :=
  ⟨⟨by decide, by decide⟩,
    C6_removed_points_append test_carver_22 1 (by decide) (by decide)⟩

/-! ### Claim C9 -/

/-- C9: whenever a grow by `d` followed by a shrink by `d` (or a shrink by
`d` followed by a grow by `d`) completes, the original width and height are
restored; nothing is claimed about pixel content. -/
theorem C9_size_round_trip (c : Carver) (d : Nat) :
    (∀ c1 c2, grow_distance c d = some c1 → shrink_distance c1 d = some c2 →
      c2.grid.width = c.grid.width ∧ c2.grid.height = c.grid.height) ∧
    (∀ c1 c2, shrink_distance c d = some c1 → grow_distance c1 d = some c2 →
      c2.grid.width = c.grid.width ∧ c2.grid.height = c.grid.height) := by
  constructor
  · intro c1 c2 hg hs
    rcases grow_dims hg with ⟨hw1, hh1, -⟩
    rcases shrink_dims d c1 c2 hs with ⟨hw2, hh2⟩
    exact ⟨by omega, by omega⟩
  · intro c1 c2 hs hg
    rcases shrink_dims d c c1 hs with ⟨hw1, hh1⟩
    have hle := shrink_some_le d c c1 hs
    rcases grow_dims hg with ⟨hw2, hh2, -⟩
    exact ⟨by omega, by omega⟩

/-- Witness for C9: a grow-then-shrink round trip of distance `1` on the
concrete 2-by-1 carver restores the 2-by-1 dimensions. -/
theorem C9_witness :
    ∃ c1 c2, grow_distance test_carver_21 1 = some c1 ∧
      shrink_distance c1 1 = some c2 ∧
      c2.grid.width = test_carver_21.grid.width ∧
      c2.grid.height = test_carver_21.grid.height := by
  cases hg : grow_distance test_carver_21 1 with
  | none =>
    have hgs : (grow_distance test_carver_21 1).isSome = true := by decide
    rw [hg] at hgs
    cases hgs
  | some c1 =>
    have hbind : ((grow_distance test_carver_21 1).bind
        (fun z => shrink_distance z 1)).isSome = true := by decide
    rw [hg] at hbind
    simp only [Option.some_bind] at hbind
    cases hs : shrink_distance c1 1 with
    | none =>
      rw [hs] at hbind
      cases hbind
    | some c2 =>
      refine ⟨c1, c2, rfl, hs, ?_⟩
      exact (C9_size_round_trip test_carver_21 1).1 c1 c2 hg hs

/-! ### Claim C2 -/

/-- C2 counterexample: the claim fails for Carver states with a non-empty
`removed_points` log.  Shrinking the 3-by-1 uniform carver by `1` leaves the
log `[(0,0)]`; a subsequent grow by `1` then processes the two points
`[(0,0), (0,0)]` — the stale recorded point plus the one point actually
removed by the new shrink simulation — although one seam of this height-1
grid consists of a single point, so `d` seams' worth would be `1 * 1 = 1`
point. -/
theorem C2_counterexample :
    ((shrink_distance test_carver_31 1).bind
        (fun c1 => get_points_removed_by_shrink c1 1)) =
      some [(0, 0), (0, 0)] ∧
    ¬ ([((0 : Nat), (0 : Nat)), (0, 0)].length = 1 * 1) := by
  constructor
  · decide
  · decide

/-- C2 amended: for every Carver whose `removed_points` log is empty (in
particular any freshly constructed Carver) and for which the shrink-by-`d`
simulation completes, the coordinates processed by `grow_distance d` are
exactly the coordinates removed by the simulated shrink on the snapshot —
`d` seams' worth, `d * height` points, and no others — sorted by descending
`x`. -/
theorem C2_grow_points_from_simulation (c : Carver) (d : Nat) (s : Carver)
    (h0 : c.removed_points = []) (hh : 0 < c.grid.height)
    (hs : shrink_distance c d = some s) :
    ∃ pts, get_points_removed_by_shrink c d = some pts ∧
      grow_distance c d =
        some (grow_insert_all { c with grid := add_columns c.grid d } pts) ∧
      pts.Perm s.removed_points ∧
      List.Sorted (fun a b => b.1 ≤ a.1) pts ∧
      pts.length = d * c.grid.height := by
  have hle := shrink_some_le d c s hs
  rcases shrink_master d c hle hh with ⟨c2, hs2, -, -, ps, hrm, hlen⟩
  have hec : c2 = s := Option.some.inj (hs2.symm.trans hs)
  subst hec
  have hpts : get_points_removed_by_shrink c d = some (sort_desc_x c2.removed_points) := by
    unfold get_points_removed_by_shrink
    rw [hs2]
    rfl
  refine ⟨sort_desc_x c2.removed_points, hpts, ?_, ?_, ?_, ?_⟩
  · unfold grow_distance
    rw [hpts]
    rfl
  · exact List.perm_insertionSort _ _
  · haveI hto : IsTotal (Nat × Nat) (fun a b => b.1 ≤ a.1) :=
      ⟨fun a b => Nat.le_total b.1 a.1⟩
    haveI htr : IsTrans (Nat × Nat) (fun a b => b.1 ≤ a.1) :=
      ⟨fun a b e h1 h2 => le_trans h2 h1⟩
    exact List.sorted_insertionSort _ _
  · have hperm := List.perm_insertionSort (fun (a b : Nat × Nat) => b.1 ≤ a.1)
      c2.removed_points
    rw [sort_desc_x, hperm.length_eq, hrm, h0]
    simpa using hlen

/-- Witness for the amended C2 on the fresh 2-by-1 carver with `d = 1`. -/
theorem C2_witness :
    ∃ pts, get_points_removed_by_shrink test_carver_21 1 = some pts ∧
      grow_distance test_carver_21 1 =
        some (grow_insert_all
          { test_carver_21 with grid := add_columns test_carver_21.grid 1 } pts) ∧
      pts.Perm [(0, 0)] ∧
      List.Sorted (fun a b => b.1 ≤ a.1) pts ∧
      pts.length = 1 * test_carver_21.grid.height := by
  cases hs : shrink_distance test_carver_21 1 with
  | none =>
    have hgs : (shrink_distance test_carver_21 1).isSome = true := by decide
    rw [hs] at hgs
    cases hgs
  | some s =>
    have hrem : ((shrink_distance test_carver_21 1).map
        (fun z => z.removed_points)) = some [(0, 0)] := by decide
    rw [hs] at hrem
    simp only [Option.map_some'] at hrem
    have main := C2_grow_points_from_simulation test_carver_21 1 s rfl (by decide) hs
    rcases main with ⟨pts, h1, h2, h3, h4, h5⟩
    rw [Option.some.inj hrem] at h3
    exact ⟨pts, h1, h2, h3, h4, h5⟩

/-! ### Claim C10 -/

/-- C10: the grow operation's shrink simulation runs on an independent
value copy of the carver.  Whenever the point discovery succeeds, (a) its
result is the pure shrink of the snapshot value (the clone is `c` itself,
with no shared mutable state in the value semantics of the embedding), and
(b) the live carver entering the widening/insertion phase still carries the
original grid `c.grid` and the original `removed_points`, i.e. the
simulation changed nothing observable on the live carver. -/
theorem C10_snapshot_frame (c : Carver) (d : Nat) (pts : List (Nat × Nat))
    (h : get_points_removed_by_shrink c d = some pts) :
    (∃ s, shrink_distance c d = some s ∧ pts = sort_desc_x (get_removed_points s)) ∧
    grow_distance c d =
      some (grow_insert_all { c with grid := add_columns c.grid d } pts) := by
  constructor
  · unfold get_points_removed_by_shrink at h
    rcases Option.map_eq_some'.mp h with ⟨s, hs, hpts⟩
    exact ⟨s, hs, hpts.symm⟩
  · unfold grow_distance
    rw [h]
    rfl

/-- Witness for C10 on the concrete 2-by-1 carver with `d = 1`. -/
theorem C10_witness :
    (∃ s, shrink_distance test_carver_21 1 = some s ∧
      [((0 : Nat), (0 : Nat))] = sort_desc_x (get_removed_points s)) ∧
    grow_distance test_carver_21 1 =
      some (grow_insert_all
        { test_carver_21 with grid := add_columns test_carver_21.grid 1 }
        [(0, 0)]) :=
  C10_snapshot_frame test_carver_21 1 [(0, 0)] (by decide)

/-! ### Claim C8 -/

/-- C8: resizing is deterministic.  Two carvers built from equal bitmaps and
given the same `(distance, orientation, mode)` resize call produce identical
output bitmaps, identical final states, and identical `removed_points`
sequences; the embedding is a pure function of its inputs and the tie-break
rules are functions, so no nondeterminism exists anywhere. -/
theorem C8_deterministic (b1 b2 : Bitmap) (d : Nat) (o : Orien) (m : Mode)
    (h : b1 = b2) :
    resize (carver_new b1) d o m = resize (carver_new b2) d o m ∧
    (resize (carver_new b1) d o m).map (fun r => get_removed_points r.2) =
      (resize (carver_new b2) d o m).map (fun r => get_removed_points r.2) := by
  subst h
  exact ⟨rfl, rfl⟩

/-- Witness for C8 at a concrete bitmap and resize call. -/
theorem C8_witness :
    resize (carver_new (uniform_bitmap 2 1 px_test)) 1 Orien.Horizontal Mode.Shrink =
      resize (carver_new (uniform_bitmap 2 1 px_test)) 1 Orien.Horizontal Mode.Shrink ∧
    (resize (carver_new (uniform_bitmap 2 1 px_test)) 1 Orien.Horizontal
        Mode.Shrink).map (fun r => get_removed_points r.2) =
      (resize (carver_new (uniform_bitmap 2 1 px_test)) 1 Orien.Horizontal
        Mode.Shrink).map (fun r => get_removed_points r.2) :=
  C8_deterministic (uniform_bitmap 2 1 px_test) (uniform_bitmap 2 1 px_test) 1
    Orien.Horizontal Mode.Shrink rfl

/-! ### Claim C7 -/

/-- C7: for a recorded coordinate `(x, y)` processed during grow, the newly
inserted cell is written at `(x + 1, y)` after the row is shifted right
(first conjunct, which is exactly the source's shift-then-write sequence,
with both neighbour pixels read before the shift), and its pixel is the
channel-wise truncated integer mean `(a + b) / 2` of the pixels previously
at `(x, y)` and `(x + 1, y)`; under the `u8` range invariant the widened
`u16` arithmetic neither overflows nor truncates, and the result is again a
`u8` pixel. -/
theorem C7_grow_inserts_average (c : Carver) (x y : Nat)
    (ha : pix_u8 ((c.grid.cell x y).pixel))
    (hb : pix_u8 ((c.grid.cell (x + 1) y).pixel)) :
    (grow_insert_point c (x, y)).grid =
      set_cell (shift_row_right_from_point c.grid x y) (x + 1) y
        (pep_of_pixel (average_pixels ((c.grid.cell x y).pixel)
          ((c.grid.cell (x + 1) y).pixel))) ∧
    ((grow_insert_point c (x, y)).grid.cell (x + 1) y).pixel =
      chan_avg ((c.grid.cell x y).pixel) ((c.grid.cell (x + 1) y).pixel) ∧
    pix_u8 (chan_avg ((c.grid.cell x y).pixel) ((c.grid.cell (x + 1) y).pixel)) := by
  refine ⟨rfl, ?_, ?_⟩
  · show ((set_cell (shift_row_right_from_point c.grid x y) (x + 1) y
        (pep_of_pixel (average_pixels ((c.grid.cell x y).pixel)
          ((c.grid.cell (x + 1) y).pixel)))).cell (x + 1) y).pixel = _
    simp only [set_cell, and_self, if_true]
    exact average_pixels_eq_chan_avg ha hb
  · rcases ha with ⟨a0, a1, a2, a3⟩
    rcases hb with ⟨b0, b1, b2, b3⟩
    exact ⟨avg2_lt a0 b0, avg2_lt a1 b1, avg2_lt a2 b2, avg2_lt a3 b3⟩

/-- Witness for C7 on the concrete 2-by-1 carver at the point `(0, 0)`. -/
theorem C7_witness :
    (grow_insert_point test_carver_21 (0, 0)).grid =
      set_cell (shift_row_right_from_point test_carver_21.grid 0 0) (0 + 1) 0
        (pep_of_pixel (average_pixels ((test_carver_21.grid.cell 0 0).pixel)
          ((test_carver_21.grid.cell (0 + 1) 0).pixel))) ∧
    ((grow_insert_point test_carver_21 (0, 0)).grid.cell (0 + 1) 0).pixel =
      chan_avg ((test_carver_21.grid.cell 0 0).pixel)
        ((test_carver_21.grid.cell (0 + 1) 0).pixel) ∧
    pix_u8 (chan_avg ((test_carver_21.grid.cell 0 0).pixel)
      ((test_carver_21.grid.cell (0 + 1) 0).pixel)) :=
  C7_grow_inserts_average test_carver_21 0 0 (by decide) (by decide)

/-! ### Claim C4 -/

/-- C4: ties are always broken leftmost-first.  For every grid of positive
width, `get_path_start` returns the bottom-row column whose `path_cost` is
minimal, and every strictly smaller column has strictly larger `path_cost`
(so on ties the leftmost minimal column wins); and whenever
`get_parent_with_min_path_cost` returns a parent, that parent lies in the
row above, its column is one of the candidate columns `{x-1, x, x+1} ∩
[0, width)` enumerated left to right, its `path_cost` is minimal among the
candidates, and every candidate column to its left has strictly larger
`path_cost`. -/
theorem C4_leftmost_tie_breaking (g : Grid) (hw : 0 < g.width) :
    (∃ x, get_path_start g = some (x, g.height - 1) ∧ x < g.width ∧
      (∀ q, q < g.width →
        (g.cell x (g.height - 1)).path_cost ≤ (g.cell q (g.height - 1)).path_cost) ∧
      (∀ q, q < x →
        (g.cell x (g.height - 1)).path_cost < (g.cell q (g.height - 1)).path_cost)) ∧
    (∀ x y pr, get_parent_with_min_path_cost g x y = some pr →
      pr.2 = y - 1 ∧ pr.1 ∈ parent_cols x g.width ∧
      (∀ q ∈ parent_cols x g.width,
        (g.cell pr.1 (y - 1)).path_cost ≤ (g.cell q (y - 1)).path_cost) ∧
      (∀ q ∈ parent_cols x g.width, q < pr.1 →
        (g.cell pr.1 (y - 1)).path_cost < (g.cell q (y - 1)).path_cost)) := by
  constructor
  · cases hm : min_by_first (fun pr : Nat × PixelEnergyPoint => pr.2.path_cost)
        ((List.range g.width).map (fun q => (q, g.cell q (g.height - 1)))) with
    | none =>
      have hne : (List.range g.width).map
          (fun q => (q, g.cell q (g.height - 1))) ≠ [] := by
        simp only [ne_eq, List.map_eq_nil_iff, List.range_eq_nil]
        omega
      exact absurd ((min_by_first_eq_none _ _).mp hm) hne
    | some m =>
      have hmem := min_by_first_mem _ _ _ hm
      rcases List.mem_map.mp hmem with ⟨q0, hq0, hq0m⟩
      subst hq0m
      refine ⟨q0, ?_, List.mem_range.mp hq0, ?_, ?_⟩
      · simp [get_path_start, hm]
      · intro q hq
        have := min_by_first_le _ _ _ hm (q, g.cell q (g.height - 1))
          (List.mem_map.mpr ⟨q, List.mem_range.mpr hq, rfl⟩)
        simpa using this
      · intro q hq
        have hpw : List.Pairwise (fun (a b : Nat × PixelEnergyPoint) => a.1 < b.1)
            ((List.range g.width).map (fun q => (q, g.cell q (g.height - 1)))) := by
          refine List.pairwise_map.mpr ?_
          simpa using List.pairwise_lt_range g.width
        have hqw : q < g.width := lt_trans hq (List.mem_range.mp hq0)
        have := min_by_first_first _ (fun (a b : Nat × PixelEnergyPoint) => a.1 < b.1)
          (fun a b h1 h2 => Nat.lt_asymm h1 h2) _ _ hpw hm
          (q, g.cell q (g.height - 1))
          (List.mem_map.mpr ⟨q, List.mem_range.mpr hqw, rfl⟩) (by simpa using hq)
        simpa using this
  · intro x y pr hpr
    cases y with
    | zero =>
      exfalso
      simp [get_parent_with_min_path_cost, get_parents_zero, min_by_first] at hpr
    | succ y0 =>
      unfold get_parent_with_min_path_cost at hpr
      rcases Option.map_eq_some'.mp hpr with ⟨t, ht, hproj⟩
      have hmem := min_by_first_mem _ _ _ ht
      rw [get_parents_succ] at ht hmem
      rcases List.mem_map.mp hmem with ⟨q0, hq0, hq0t⟩
      subst hq0t
      subst hproj
      refine ⟨rfl, by simpa using hq0, ?_, ?_⟩
      · intro q hq
        have := min_by_first_le _ _ _ ht (q, y0, g.cell q y0)
          (List.mem_map.mpr ⟨q, hq, rfl⟩)
        simpa using this
      · intro q hq hlt
        have hpw : List.Pairwise (fun (a b : Nat × Nat × PixelEnergyPoint) => a.1 < b.1)
            ((parent_cols x g.width).map (fun px => (px, y0, g.cell px y0))) := by
          refine List.pairwise_map.mpr ?_
          simpa using parent_cols_pairwise x g.width
        have := min_by_first_first _ (fun (a b : Nat × Nat × PixelEnergyPoint) => a.1 < b.1)
          (fun a b h1 h2 => Nat.lt_asymm h1 h2) _ _ hpw ht
          (q, y0, g.cell q y0) (List.mem_map.mpr ⟨q, hq, rfl⟩) (by simpa using hlt)
        simpa using this

/-- Witness for C4 on the concrete grid of the 2-by-2 uniform carver. -/
theorem C4_witness :
    0 < test_carver_22.grid.width ∧
    ((∃ x, get_path_start test_carver_22.grid =
        some (x, test_carver_22.grid.height - 1) ∧ x < test_carver_22.grid.width ∧
      (∀ q, q < test_carver_22.grid.width →
        (test_carver_22.grid.cell x (test_carver_22.grid.height - 1)).path_cost ≤
          (test_carver_22.grid.cell q (test_carver_22.grid.height - 1)).path_cost) ∧
      (∀ q, q < x →
        (test_carver_22.grid.cell x (test_carver_22.grid.height - 1)).path_cost <
          (test_carver_22.grid.cell q (test_carver_22.grid.height - 1)).path_cost)) ∧
    (∀ x y pr, get_parent_with_min_path_cost test_carver_22.grid x y = some pr →
      pr.2 = y - 1 ∧ pr.1 ∈ parent_cols x test_carver_22.grid.width ∧
      (∀ q ∈ parent_cols x test_carver_22.grid.width,
        (test_carver_22.grid.cell pr.1 (y - 1)).path_cost ≤
          (test_carver_22.grid.cell q (y - 1)).path_cost) ∧
      (∀ q ∈ parent_cols x test_carver_22.grid.width, q < pr.1 →
        (test_carver_22.grid.cell pr.1 (y - 1)).path_cost <
          (test_carver_22.grid.cell q (y - 1)).path_cost))) :=
  ⟨by decide, C4_leftmost_tie_breaking test_carver_22.grid (by decide)⟩

/-! ### Claim C5 -/

/-- C5: on a uniform-colour image every pixel's energy is zero, every tie
resolves leftmost, and the seam found by a single shrink iteration is the
straight leftmost column `(0, h-1), (0, h-2), ..., (0, 0)` (recorded in
`removed_points` of the fresh carver in exactly that order). -/
theorem C5_uniform_leftmost_seam (w h : Nat) (p : Rgba) (hw : 0 < w) (hh : 0 < h) :
    ∃ c2, shrink_step (carver_new (uniform_bitmap w h p)) = some c2 ∧
      c2.removed_points = (List.range h).reverse.map (fun r => ((0 : Nat), r)) := by
  have hs : get_path_start (calculate_energy (carver_new (uniform_bitmap w h p))).grid =
      some (0, h - 1) := by
    rw [calculate_energy_grid_proj]
    exact uniform_get_path_start w h p hw
  refine ⟨_, shrink_step_eq_some hs, ?_⟩
  rw [remove_path_removed]
  have hfp := uniform_find_path w h p hw (h - 1)
  have hh1 : h - 1 + 1 = h := by omega
  rw [hh1] at hfp
  simp only [calculate_energy_removed, calculate_energy_grid_proj, carver_new_removed,
    List.nil_append]
  exact hfp

/-- Witness for C5 on the concrete 2-by-2 uniform image. -/
theorem C5_witness :
    ∃ c2, shrink_step (carver_new (uniform_bitmap 2 2 px_test)) = some c2 ∧
      c2.removed_points = (List.range 2).reverse.map (fun r => ((0 : Nat), r)) :=
  C5_uniform_leftmost_seam 2 2 px_test (by decide) (by decide)

end Carve
